import Mathlib

/-!
Verification of the table filter/sort engine of the VaOverseasSchools repository
(`src/script.js`).  The DOM table is embedded shallowly: a row is its list of
`<td>` text contents plus its `filtered` CSS-class flag, the page state carries
the header texts, the `data-sort` attribute (present on at most one header),
the two filter control values and the dropdown options.  JavaScript strings are
Lean `String`s; `localeCompare` and the default `Array.sort` comparator are
modelled as code-point lexicographic comparison (they agree with locale
collation on the ASCII data considered here); `toLowerCase`/`trim` use the
ASCII/whitespace character classes of `Char`.  `parseFloat` is modelled exactly on
the decimal-literal grammar (sign, digits, decimal point, exponent, longest
valid prefix), the parse kept as an integer mantissa/exponent pair and
compared exactly; the special `Infinity`/`NaN` literal forms are outside the
modelled grammar.  A thrown `TypeError` is modelled as `none`.
-/

namespace VaSchools

/-- Model of `String.prototype.toLowerCase()` (ASCII case mapping). -/
def toLowerString (s : String) : String := String.mk (s.data.map Char.toLower)

/-- Model of `String.prototype.trim()`: remove leading and trailing whitespace. -/
def jsTrim (s : String) : String :=
  String.mk (((s.data.dropWhile Char.isWhitespace).reverse.dropWhile Char.isWhitespace).reverse)

/-- Whether `needle` starts `hay`. -/
def isPrefList : List Char → List Char → Bool
  | [], _ => true
  | _ :: _, [] => false
  | a :: as, b :: bs => a == b && isPrefList as bs

/-- Whether `needle` occurs contiguously in `hay`. -/
def isSubList (needle : List Char) : List Char → Bool
  | [] => needle.isEmpty
  | c :: rest => isPrefList needle (c :: rest) || isSubList needle rest

/-- Model of `hay.includes(needle)` — substring test. -/
def strIncludes (hay needle : String) : Bool := isSubList needle.data hay.data

/-- Code-point lexicographic three-way comparison of character lists. -/
def charListCompare : List Char → List Char → Ordering
  | [], [] => .eq
  | [], _ :: _ => .lt
  | _ :: _, [] => .gt
  | a :: as, b :: bs =>
    if a < b then .lt
    else if b < a then .gt
    else charListCompare as bs

/-- Model of `a.localeCompare(b)` as code-point lexicographic comparison. -/
def localeCompare (a b : String) : Ordering := charListCompare a.data b.data

/-- Three-way comparison on `ℚ` (used only to reason about `numCompare`). -/
def ratCompare (a b : ℚ) : Ordering := if a < b then .lt else if a = b then .eq else .gt

/-- Three-way comparison on `Int`. -/
def intCompare (x y : Int) : Ordering := if x < y then .lt else if x = y then .eq else .gt

/-- Value of a run of decimal digits. -/
def digitsToNat (ds : List Char) : Nat := ds.foldl (fun n c => 10 * n + (c.toNat - 48)) 0

/-- Exponent part after `e`/`E` in a float literal: optional sign then digits;
an empty digit run contributes exponent `0` (the `e` is then not part of the
longest valid prefix, which `parseFloat` ignores). -/
def parseExpInt (cs : List Char) : Int :=
  match cs with
  | '+' :: rest => Int.ofNat (digitsToNat (rest.takeWhile Char.isDigit))
  | '-' :: rest => -Int.ofNat (digitsToNat (rest.takeWhile Char.isDigit))
  | _ => Int.ofNat (digitsToNat (cs.takeWhile Char.isDigit))

/-- Model of `parseFloat(s)` (src/script.js:330-331): skip leading whitespace, optional
sign, decimal digits with optional fraction and exponent; `none` models `NaN`
(no digit in the longest valid prefix).  The parsed number is kept as the
exact pair `(m, e)` denoting `m * 10 ^ e`, the value the literal writes. -/
def parseFloat (s : String) : Option (Int × Int) :=
  let cs := s.data.dropWhile Char.isWhitespace
  let signAndRest : Int × List Char :=
    match cs with
    | '-' :: r => (-1, r)
    | '+' :: r => (1, r)
    | _ => (1, cs)
  let sign := signAndRest.1
  let cs1 := signAndRest.2
  let intDs := cs1.takeWhile Char.isDigit
  let cs2 := cs1.dropWhile Char.isDigit
  let fracAndRest : List Char × List Char :=
    match cs2 with
    | '.' :: r => (r.takeWhile Char.isDigit, r.dropWhile Char.isDigit)
    | _ => ([], cs2)
  let fracDs := fracAndRest.1
  let cs3 := fracAndRest.2
  if intDs.isEmpty && fracDs.isEmpty then none
  else
    let mant : Int := sign * (digitsToNat (intDs ++ fracDs) : Int)
    let exp : Int :=
      (match cs3 with
        | 'e' :: r => parseExpInt r
        | 'E' :: r => parseExpInt r
        | _ => 0) - fracDs.length
    some (mant, exp)

/-- The real value a parsed pair denotes. -/
def toRatVal (p : Int × Int) : ℚ := (p.1 : ℚ) * (10 : ℚ) ^ p.2

/-- Exact comparison of two parsed numbers `m * 10 ^ e` by cross-scaling the
mantissas with the (nonnegative) exponent difference. -/
def numCompare (p q : Int × Int) : Ordering :=
  if 0 ≤ p.2 - q.2 then intCompare (p.1 * 10 ^ (p.2 - q.2).toNat) q.1
  else intCompare p.1 (q.1 * 10 ^ (q.2 - p.2).toNat)

/-- The comparator body of `sortTable` (src/script.js:325-341) on the two
trimmed cell texts: numeric comparison when both `parseFloat`, otherwise
`localeCompare` on the raw strings; `desc` swaps the operands.  Only the sign
of the JS comparator's number is observable, so it is returned as `Ordering`. -/
def rowOrder (asc : Bool) (aValue bValue : String) : Ordering :=
  match parseFloat aValue, parseFloat bValue with
  | some aNum, some bNum => if asc then numCompare aNum bNum else numCompare bNum aNum
  | _, _ => if asc then localeCompare aValue bValue else localeCompare bValue aValue

section StableSortDefs

variable {α : Type} (lt : α → α → Bool)

/-- Insert `x` (the element that came earlier in the input) into an already
sorted list, after exactly the elements strictly below it — the insertion step
of a stable sort. -/
def insertStable (x : α) : List α → List α
  | [] => [x]
  | y :: ys => if lt y x then y :: insertStable x ys else x :: y :: ys

/-- Stable sort by a strict comparator; `ECMAScript` requires
`Array.prototype.sort` to be stable, and on a consistent comparator the stable
result is unique, so insertion sort realises it. -/
def stableSort : List α → List α
  | [] => []
  | x :: xs => insertStable lt x (stableSort xs)

end StableSortDefs

/-- One `<tr>` of the rendered table: its `<td>` text contents and whether the
`filtered` class (hiding the row) is present. -/
structure Row where
  cells : List String
  filtered : Bool
deriving DecidableEq, Repr

/-- The page state the engine reads and writes.  `sortState` is the
`data-sort` attribute: `some (c, true)` means column `c` carries `asc`,
`some (c, false)` means `desc`, `none` means no header carries the attribute
(the initial, unsorted state); the code keeps it on at most one header.
`visibleCount`/`pageSize` are the pagination counters of the spec's
TableViewEngine; the pagination code itself is not part of `src/` (see
`showMore` below). -/
structure TableState where
  headers : List String
  sortState : Option (Nat × Bool)
  rows : List Row
  searchValue : String
  countryValue : String
  countryOptions : List String
  visibleCount : Nat
  pageSize : Nat
deriving DecidableEq, Repr

/-- Value of `cells[ci].textContent.trim()` with the cell present (`getD` default is
never reached under the guards used below). -/
def cellText (r : Row) (ci : Nat) : String := jsTrim (r.cells.getD ci "")

/-- Strict "comes before" relation between two rows under the `sortTable`
comparator. -/
def rowLt (ci : Nat) (asc : Bool) (a b : Row) : Bool :=
  rowOrder asc (cellText a ci) (cellText b ci) == .lt

/-- Value of the ternary `th.getAttribute('data-sort') === 'asc' ? 'desc' : 'asc'`
(src/script.js:314), read on the clicked header before the reset;
`true` encodes `asc`. -/
def nextDirection (clicked : Nat) (s : Option (Nat × Bool)) : Bool :=
  if s = some (clicked, true) then false else true

/-- Every row has a `<td>` at the sorted column. -/
def allCellsPresent (ci : Nat) (rows : List Row) : Bool :=
  rows.all fun r => ci < r.cells.length

/-- The row-sorting step of `sortTable` (src/script.js:325-349).  The
comparator dereferences `cells[columnIndex].textContent` unguarded, so a
missing cell throws a `TypeError` (`none`) — except that a list of at most one
row is returned without the comparator ever being invoked. -/
def sortRows (ci : Nat) (asc : Bool) (rows : List Row) : Option (List Row) :=
  if rows.length ≤ 1 || allCellsPresent ci rows then
    some (stableSort (rowLt ci asc) rows)
  else none

/-- Model of `sortTable(columnIndex)` (src/script.js:305-352): pick the new direction
from the clicked header's `data-sort`, move the attribute to that header, and
stably reorder the `<tr>`s.  On a comparator `TypeError` the whole call is
modelled as `none`. -/
def sortTable (ci : Nat) (st : TableState) : Option TableState :=
  match sortRows ci (nextDirection ci st.sortState) st.rows with
  | some sortedRows =>
      some { st with sortState := some (ci, nextDirection ci st.sortState),
                     rows := sortedRows }
  | none => none

/-- Value of `row.textContent`: concatenation of the cell texts (inter-cell whitespace
text nodes of the serialized HTML are not modelled). -/
def rowTextContent (r : Row) : String := String.join r.cells

/-- Result of `headers.findIndex(h => h.textContent.toLowerCase() === 'country')`
(src/script.js:203-205 and 251-253), with `-1` rendered as `none`. -/
def countryColIndex (headers : List String) : Option Nat :=
  headers.findIdx? fun h => toLowerString h == "country"

/-- The per-row `showRow` computation of `applyFilters`
(src/script.js:258-275): the country dropdown (full-string equality on the
trimmed country cell, skipped when no country is selected, no country column
exists, or the row lacks that cell) and then the text search (substring of the
lowercased row text, skipped when the search box is empty). -/
def rowShown (headers : List String) (searchVal countryVal : String) (r : Row) : Bool :=
  let searchText := toLowerString searchVal
  let afterCountry : Bool :=
    if countryVal ≠ "" then
      match countryColIndex headers with
      | some ci =>
        match r.cells.get? ci with
        | some cell => if jsTrim cell ≠ countryVal then false else true
        | none => true
      | none => true
    else true
  if afterCountry && searchText ≠ "" then
    strIncludes (toLowerString (rowTextContent r)) searchText
  else afterCountry

/-- Model of `applyFilters()` (src/script.js:243-287): recompute the `filtered` class
of every row from the two filter controls. -/
def applyFilters (st : TableState) : TableState :=
  { st with rows := st.rows.map fun r =>
      { r with filtered := !(rowShown st.headers st.searchValue st.countryValue r) } }

/-- The `uniqueCountries` set of `populateCountryFilter`
(src/script.js:213-222) in `Set` insertion order: trimmed country cells of the
rows having that cell, empty values dropped, first occurrence kept. -/
def uniqueCountriesStep (ci : Nat) (acc : List String) (r : Row) : List String :=
  if ci < r.cells.length then
    if jsTrim (r.cells.getD ci "") = "" then acc
    else if jsTrim (r.cells.getD ci "") ∈ acc then acc
    else acc ++ [jsTrim (r.cells.getD ci "")]
  else acc

def uniqueCountries (ci : Nat) (rows : List Row) : List String :=
  rows.foldl (uniqueCountriesStep ci) []

/-- The default `Array.prototype.sort()` comparator: code-unit lexicographic
string comparison. -/
def defaultStrLt (a b : String) : Bool := charListCompare a.data b.data == .lt

/-- Model of `populateCountryFilter()` (src/script.js:198-241): find the country
column, collect its distinct non-empty trimmed values, sort them, drop every
dropdown option beyond the first and append the sorted values. -/
def populateCountryFilter (st : TableState) : TableState :=
  match countryColIndex st.headers with
  | none => st
  | some ci =>
      { st with countryOptions :=
          st.countryOptions.take 1 ++ stableSort defaultStrLt (uniqueCountries ci st.rows) }

/-- Rows not carrying the `filtered` class — the currently matching sequence. -/
def matchingRows (st : TableState) : List Row := st.rows.filter fun r => !r.filtered

/-- Modelled from the spec: `showMore()` of the TableViewEngine (spec §4.1) is
not present in `src/` (only `src/script.js` is provided, without the
pagination handlers); per the spec it increments `visibleCount` by 1. -/
def showMore (st : TableState) : TableState :=
  { st with visibleCount := st.visibleCount + 1 }

/-- Modelled from the spec: the paginated visible row sequence — the first
`visibleCount × pageSize` records of the currently filtered sequence
(spec §4.1, `currentVisibleSet`). -/
def visibleRows (st : TableState) : List Row :=
  (matchingRows st).take (st.visibleCount * st.pageSize)

/-- Modelled from the spec's words, for comparison with `rowOrder` only: the
comparator C1 describes, which strips thousands-separator characters and
currency symbols (representatives: `,` `$` `€` `£` `¥`) before parsing. -/
def stripSeparators (s : String) : String :=
  String.mk (s.data.filter fun c => !(c == ',' || c == '$' || c == '€' || c == '£' || c == '¥'))

/-- Modelled from the spec's words, for comparison with `rowOrder` only: the
claimed comparison rule of C1 — numeric on the stripped values when both
parse, otherwise lexicographic on the raw strings. -/
def specStripOrder (asc : Bool) (aValue bValue : String) : Ordering :=
  match parseFloat (stripSeparators aValue), parseFloat (stripSeparators bValue) with
  | some aNum, some bNum => if asc then numCompare aNum bNum else numCompare bNum aNum
  | _, _ => if asc then localeCompare aValue bValue else localeCompare bValue aValue

/-- Row sorting as C1 describes it, over the spec's comparator. -/
def specSortRows (ci : Nat) (asc : Bool) (rows : List Row) : List Row :=
  stableSort (fun a b => specStripOrder asc (cellText a ci) (cellText b ci) == .lt) rows

/-! ### Generic facts about the stable sort -/

section StableSortLemmas

variable {α : Type} (lt : α → α → Bool)

theorem insertStable_perm (x : α) (l : List α) : (insertStable lt x l).Perm (x :: l) := by
  induction l with
  | nil => exact List.Perm.refl _
  | cons y ys ih =>
    cases h : lt y x with
    | true =>
      simp only [insertStable, h, if_true]
      exact (ih.cons y).trans (List.Perm.swap x y ys)
    | false => simp [insertStable, h]

theorem stableSort_perm (l : List α) : (stableSort lt l).Perm l := by
  induction l with
  | nil => exact List.Perm.refl _
  | cons x xs ih => exact (insertStable_perm lt x _).trans (ih.cons x)

theorem mem_insertStable {x a : α} {l : List α} :
    a ∈ insertStable lt x l ↔ a = x ∨ a ∈ l := by
  rw [(insertStable_perm lt x l).mem_iff]; simp

theorem filter_insertStable_neg (p : α → Bool) {x : α} (hx : p x = false) (l : List α) :
    (insertStable lt x l).filter p = l.filter p := by
  induction l with
  | nil => simp [insertStable, hx]
  | cons y ys ih =>
    cases h : lt y x with
    | true => simp [insertStable, h, List.filter_cons, ih]
    | false => simp [insertStable, h, List.filter_cons, hx]

theorem filter_insertStable_pos (p : α → Bool) {x : α} (hx : p x = true)
    (hlt : ∀ y, p y = true → lt y x = false) (l : List α) :
    (insertStable lt x l).filter p = x :: l.filter p := by
  induction l with
  | nil => simp [insertStable, hx]
  | cons y ys ih =>
    cases h : lt y x with
    | true =>
      have hy : p y = false := by
        cases hpy : p y with
        | true => rw [hlt y hpy] at h; cases h
        | false => rfl
      simp [insertStable, h, List.filter_cons, hy, ih]
    | false => simp [insertStable, h, List.filter_cons, hx]

/-- Stability of `stableSort`: any class of pairwise-tied elements (no member
strictly below another) is traversed by the sort in its original order. -/
theorem stableSort_filter (p : α → Bool)
    (hp : ∀ x y, p x = true → p y = true → lt y x = false) (l : List α) :
    (stableSort lt l).filter p = l.filter p := by
  induction l with
  | nil => rfl
  | cons x xs ih =>
    cases hx : p x with
    | true =>
      rw [stableSort, filter_insertStable_pos lt p hx (fun y hy => hp x y hx hy), ih]
      simp [List.filter_cons, hx]
    | false =>
      rw [stableSort, filter_insertStable_neg lt p hx, ih]
      simp [List.filter_cons, hx]

theorem pairwise_insertStable {x : α} {l : List α}
    (hasym : ∀ a b, lt a b = true → lt b a = false)
    (hneg : ∀ a b c, lt b a = false → lt c b = false → lt c a = false)
    (hl : l.Pairwise fun a b => lt b a = false) :
    (insertStable lt x l).Pairwise fun a b => lt b a = false := by
  induction l with
  | nil => simp [insertStable]
  | cons y ys ih =>
    rw [List.pairwise_cons] at hl
    obtain ⟨hy, hys⟩ := hl
    cases h : lt y x with
    | true =>
      simp only [insertStable, h, if_true, List.pairwise_cons]
      refine ⟨fun z hz => ?_, ih hys⟩
      rcases (mem_insertStable lt).1 hz with rfl | hz
      · exact hasym y z h
      · exact hy z hz
    | false =>
      simp only [insertStable, h, Bool.false_eq_true, if_false, List.pairwise_cons]
      exact ⟨fun z hz => by
        rcases List.mem_cons.1 hz with rfl | hz
        · exact h
        · exact hneg x y z h (hy z hz), hy, hys⟩

theorem stableSort_pairwise
    (hasym : ∀ a b, lt a b = true → lt b a = false)
    (hneg : ∀ a b c, lt b a = false → lt c b = false → lt c a = false)
    (l : List α) :
    (stableSort lt l).Pairwise fun a b => lt b a = false := by
  induction l with
  | nil => simp [stableSort]
  | cons x xs ih => exact pairwise_insertStable lt hasym hneg ih

end StableSortLemmas

/-! ### Facts about the comparison primitives -/

theorem ordBeqLt_true_iff (o : Ordering) : (o == Ordering.lt) = true ↔ o = .lt := by
  cases o <;> decide

theorem ordBeqLt_false_iff (o : Ordering) : (o == Ordering.lt) = false ↔ o ≠ .lt := by
  cases o <;> decide

theorem charListCompare_eq_iff : ∀ (a b : List Char), charListCompare a b = .eq ↔ a = b
  | [], [] => by simp [charListCompare]
  | [], _ :: _ => by simp [charListCompare]
  | _ :: _, [] => by simp [charListCompare]
  | a :: as, b :: bs => by
    simp only [charListCompare]
    rcases lt_trichotomy a b with h | rfl | h
    · rw [if_pos h]
      exact iff_of_false (by decide) (by rintro ⟨⟩; exact lt_irrefl a h)
    · rw [if_neg (lt_irrefl a), if_neg (lt_irrefl a)]
      rw [charListCompare_eq_iff as bs]
      simp
    · rw [if_neg (lt_asymm h), if_pos h]
      exact iff_of_false (by decide) (by rintro ⟨⟩; exact lt_irrefl a h)

theorem charListCompare_swap : ∀ (a b : List Char),
    charListCompare b a = (charListCompare a b).swap
  | [], [] => rfl
  | [], _ :: _ => rfl
  | _ :: _, [] => rfl
  | a :: as, b :: bs => by
    simp only [charListCompare]
    rcases lt_trichotomy a b with h | rfl | h
    · rw [if_pos h, if_neg (lt_asymm h), if_pos h]; rfl
    · rw [if_neg (lt_irrefl a), if_neg (lt_irrefl a), if_neg (lt_irrefl a),
        if_neg (lt_irrefl a)]
      exact charListCompare_swap as bs
    · rw [if_pos h, if_neg (lt_asymm h), if_pos h]; rfl

theorem charListCompare_lt_trans : ∀ (a b c : List Char),
    charListCompare a b = .lt → charListCompare b c = .lt → charListCompare a c = .lt
  | [], [], _, h1, _ => by simp [charListCompare] at h1
  | [], _ :: _, [], _, h2 => by simp [charListCompare] at h2
  | [], _ :: _, _ :: _, _, _ => by simp [charListCompare]
  | _ :: _, [], _, h1, _ => by simp [charListCompare] at h1
  | _ :: _, _ :: _, [], _, h2 => by simp [charListCompare] at h2
  | x :: xs, y :: ys, z :: zs, h1, h2 => by
    simp only [charListCompare] at h1 h2 ⊢
    rcases lt_trichotomy x y with hxy | rfl | hxy
    · rcases lt_trichotomy y z with hyz | rfl | hyz
      · rw [if_pos (lt_trans hxy hyz)]
      · rw [if_pos hxy]
      · rw [if_neg (lt_asymm hyz), if_pos hyz] at h2; cases h2
    · rw [if_neg (lt_irrefl x), if_neg (lt_irrefl x)] at h1
      rcases lt_trichotomy x z with hxz | rfl | hxz
      · rw [if_pos hxz]
      · rw [if_neg (lt_irrefl x), if_neg (lt_irrefl x)] at h2 ⊢
        exact charListCompare_lt_trans xs ys zs h1 h2
      · rw [if_neg (lt_asymm hxz), if_pos hxz] at h2; cases h2
    · rw [if_neg (lt_asymm hxy), if_pos hxy] at h1; cases h1

theorem defaultStrLt_asymm (a b : String) :
    defaultStrLt a b = true → defaultStrLt b a = false := by
  intro h
  rw [defaultStrLt, ordBeqLt_true_iff] at h
  rw [defaultStrLt, charListCompare_swap, h]
  rfl

theorem defaultStrLt_negTrans (a b c : String) :
    defaultStrLt b a = false → defaultStrLt c b = false → defaultStrLt c a = false := by
  intro hba hcb
  rw [defaultStrLt, ordBeqLt_false_iff] at hba hcb
  rw [defaultStrLt, ordBeqLt_false_iff]
  intro hca
  rcases h3 : charListCompare c.data b.data with _ | _ | _
  · exact hcb h3
  · rw [charListCompare_eq_iff] at h3
    exact hba (by rw [← h3]; exact hca)
  · have hbc : charListCompare b.data c.data = .lt := by
      rw [charListCompare_swap, h3]; rfl
    exact hba (charListCompare_lt_trans _ _ _ hbc hca)

theorem defaultStrLt_connex (a b : String) :
    defaultStrLt a b = false → a = b ∨ defaultStrLt b a = true := by
  intro h
  rw [defaultStrLt, ordBeqLt_false_iff] at h
  rcases h3 : charListCompare a.data b.data with _ | _ | _
  · exact absurd h3 h
  · exact Or.inl (String.ext ((charListCompare_eq_iff _ _).1 h3))
  · refine Or.inr ?_
    rw [defaultStrLt, ordBeqLt_true_iff, charListCompare_swap, h3]
    rfl

theorem ratCompare_self (a : ℚ) : ratCompare a a = .eq := by
  simp [ratCompare]

theorem ratCompare_eq_iff (a b : ℚ) : ratCompare a b = .eq ↔ a = b := by
  unfold ratCompare
  rcases lt_trichotomy a b with h | rfl | h
  · rw [if_pos h]
    exact iff_of_false (by decide) (fun hc => absurd hc (ne_of_lt h))
  · simp
  · rw [if_neg (lt_asymm h), if_neg (ne_of_gt h)]
    exact iff_of_false (by decide) (fun hc => absurd hc (ne_of_gt h))

theorem localeCompare_eq_iff (a b : String) : localeCompare a b = .eq ↔ a = b := by
  rw [localeCompare, charListCompare_eq_iff]
  exact ⟨fun h => String.ext h, fun h => by rw [h]⟩

/-- Lemma: `intCompare` agrees with `ratCompare` under the cast into `ℚ`. -/
theorem intCompare_eq_ratCompare (x y : Int) :
    intCompare x y = ratCompare (x : ℚ) (y : ℚ) := by
  unfold intCompare ratCompare
  simp only [Int.cast_lt, Int.cast_inj]

/-- Cancelling a positive factor on both sides of a comparison. -/
theorem ratCompare_mul_right {c : ℚ} (hc : 0 < c) (a b : ℚ) :
    ratCompare (a * c) (b * c) = ratCompare a b := by
  unfold ratCompare
  simp only [mul_lt_mul_right hc, mul_eq_mul_right_iff, or_iff_left (ne_of_gt hc)]

/-- Lemma: `numCompare` computes the exact comparison of the denoted real values. -/
theorem numCompare_eq_ratCompare (p q : Int × Int) :
    numCompare p q = ratCompare (toRatVal p) (toRatVal q) := by
  have h10 : (10 : ℚ) ≠ 0 := by norm_num
  unfold numCompare
  by_cases hd : 0 ≤ p.2 - q.2
  · rw [if_pos hd, intCompare_eq_ratCompare]
    have key : toRatVal p = ((p.1 * 10 ^ (p.2 - q.2).toNat : Int) : ℚ) * (10 : ℚ) ^ q.2 := by
      unfold toRatVal
      push_cast
      rw [mul_assoc, ← zpow_natCast (10 : ℚ) (p.2 - q.2).toNat,
        ← zpow_add₀ h10, Int.toNat_of_nonneg hd, sub_add_cancel]
    have keyq : toRatVal q = ((q.1 : Int) : ℚ) * (10 : ℚ) ^ q.2 := rfl
    rw [key, keyq, ratCompare_mul_right (zpow_pos (by norm_num) _)]
  · rw [if_neg hd, intCompare_eq_ratCompare]
    have key : toRatVal q = ((q.1 * 10 ^ (q.2 - p.2).toNat : Int) : ℚ) * (10 : ℚ) ^ p.2 := by
      unfold toRatVal
      push_cast
      rw [mul_assoc, ← zpow_natCast (10 : ℚ) (q.2 - p.2).toNat,
        ← zpow_add₀ h10, Int.toNat_of_nonneg (by omega), sub_add_cancel]
    have keyp : toRatVal p = ((p.1 : Int) : ℚ) * (10 : ℚ) ^ p.2 := rfl
    rw [key, keyp, ratCompare_mul_right (zpow_pos (by norm_num) _)]

/-- Elimination form of a tie under the ascending comparator: either both
values parse to the same real number, or neither parses and they are the same
string. -/
theorem rowOrder_true_eq_elim {a v : String} (h : rowOrder true a v = .eq) :
    (∃ pa pv, parseFloat a = some pa ∧ parseFloat v = some pv
      ∧ toRatVal pa = toRatVal pv)
    ∨ (parseFloat a = none ∧ parseFloat v = none ∧ a = v) := by
  unfold rowOrder at h
  rcases hpa : parseFloat a with _ | pa <;> rcases hpv : parseFloat v with _ | pv <;>
    rw [hpa, hpv] at h
  · exact Or.inr ⟨rfl, rfl, by simpa [localeCompare_eq_iff] using h⟩
  · have hav : a = v := by simpa [localeCompare_eq_iff] using h
    rw [hav, hpv] at hpa
    cases hpa
  · have hav : a = v := by simpa [localeCompare_eq_iff] using h
    rw [hav, hpv] at hpa
    cases hpa
  · refine Or.inl ⟨pa, pv, rfl, rfl, ?_⟩
    have hnum : numCompare pa pv = .eq := by simpa using h
    rw [numCompare_eq_ratCompare, ratCompare_eq_iff] at hnum
    exact hnum

/-- Two cell values tied with a common value `v` under the ascending comparator
are tied with each other, in either direction. -/
theorem rowOrder_tie {a b v : String} (asc : Bool)
    (ha : rowOrder true a v = .eq) (hb : rowOrder true b v = .eq) :
    rowOrder asc b a = .eq := by
  rcases rowOrder_true_eq_elim ha with ⟨pa, pv, hpa, hpv, hva⟩ | ⟨hpa, hpv, hav⟩
  · rcases rowOrder_true_eq_elim hb with ⟨pb, pv2, hpb, hpv2, hvb⟩ | ⟨-, hpv2, -⟩
    · rw [hpv] at hpv2
      injection hpv2 with hpv2
      subst hpv2
      unfold rowOrder
      rw [hpa, hpb]
      cases asc <;>
        simp [numCompare_eq_ratCompare, ratCompare_eq_iff, hva, hvb]
    · rw [hpv] at hpv2
      cases hpv2
  · rcases rowOrder_true_eq_elim hb with ⟨pb, pv2, hpb, hpv2, hvb⟩ | ⟨hpb, -, hbv⟩
    · rw [hpv] at hpv2
      cases hpv2
    · subst hav hbv
      unfold rowOrder
      rw [hpa]
      cases asc <;> simp [localeCompare_eq_iff]

theorem ordBeqEq_true_iff (o : Ordering) : (o == Ordering.eq) = true ↔ o = .eq := by
  cases o <;> decide

/-! ### Elimination helpers for the sorting operations -/

theorem sortRows_some_elim {ci : Nat} {asc : Bool} {rows sorted : List Row}
    (h : sortRows ci asc rows = some sorted) :
    sorted = stableSort (rowLt ci asc) rows := by
  unfold sortRows at h
  split at h
  · exact (Option.some.injEq _ _ ▸ h).symm
  · cases h

theorem sortTable_some_elim {ci : Nat} {st st' : TableState}
    (h : sortTable ci st = some st') :
    st'.sortState = some (ci, nextDirection ci st.sortState)
    ∧ st'.rows = stableSort (rowLt ci (nextDirection ci st.sortState)) st.rows
    ∧ st'.headers = st.headers ∧ st'.searchValue = st.searchValue
    ∧ st'.countryValue = st.countryValue ∧ st'.countryOptions = st.countryOptions
    ∧ st'.visibleCount = st.visibleCount ∧ st'.pageSize = st.pageSize := by
  unfold sortTable at h
  rcases hs : sortRows ci (nextDirection ci st.sortState) st.rows with _ | rs
  · rw [hs] at h; cases h
  · rw [hs] at h
    injection h with h
    subst h
    have hrs := sortRows_some_elim hs
    exact ⟨rfl, by rw [← hrs], rfl, rfl, rfl, rfl, rfl, rfl⟩

/-! ### Claim C1 — the comparator of `sortTable` -/

/-- C1 counterexample: on the currency column `["$5", "$40"]` the code's
ascending sort yields `["$40", "$5"]` — `parseFloat` is applied to the raw
values, `"$5"` and `"$40"` are both `NaN`, and the raw string comparison puts
`"$40"` first — while the claimed strip-then-parse comparator yields
`["$5", "$40"]`; the two outcomes differ. -/
theorem sortRows_currency_counterexample :
    sortRows 0 true [⟨["$5"], false⟩, ⟨["$40"], false⟩]
      = some [⟨["$40"], false⟩, ⟨["$5"], false⟩]
    ∧ specSortRows 0 true [⟨["$5"], false⟩, ⟨["$40"], false⟩]
      = [⟨["$5"], false⟩, ⟨["$40"], false⟩]
    ∧ ([⟨["$40"], false⟩, ⟨["$5"], false⟩] : List Row)
      ≠ [⟨["$5"], false⟩, ⟨["$40"], false⟩] :=
  ⟨by decide, by decide, by decide⟩

/-- C1 amended: the comparator applies `parseFloat` to the raw trimmed cell
values — no separator or currency stripping — comparing numerically when both
parse (a leading numeric prefix suffices, so `"1,000"` parses as `1`), and
otherwise comparing the raw strings lexicographically; `["10", "2", "1"]`
sorts ascending to `["1", "2", "10"]`, while `["$5", "$40"]` sorts to
`["$40", "$5"]` and `"1,000"` orders below `"20"` by its prefix value `1`. -/
theorem sortRows_parseFloat_direct :
    sortRows 0 true [⟨["10"], false⟩, ⟨["2"], false⟩, ⟨["1"], false⟩]
      = some [⟨["1"], false⟩, ⟨["2"], false⟩, ⟨["10"], false⟩]
    ∧ sortRows 0 true [⟨["$5"], false⟩, ⟨["$40"], false⟩]
      = some [⟨["$40"], false⟩, ⟨["$5"], false⟩]
    ∧ rowOrder true "1,000" "20" = .lt ∧ specStripOrder true "1,000" "20" = .gt :=
  ⟨by decide, by decide, by decide, by decide⟩

/-! ### Claim C2 — the direction state machine of `sortTable` -/

/-- C2: clicking a column that is not the current sort column (including from
the initial unsorted state and from any other column, whatever its direction)
activates it ascending and sorts the rows ascending on it; clicking the
current sort column flips the direction; no click ever yields the unsorted
state. -/
theorem sortTable_direction_rule :
    (∀ ci st st', (∀ d, st.sortState ≠ some (ci, d)) → sortTable ci st = some st' →
        st'.sortState = some (ci, true)
          ∧ st'.rows = stableSort (rowLt ci true) st.rows)
    ∧ (∀ ci d st st', st.sortState = some (ci, d) → sortTable ci st = some st' →
        st'.sortState = some (ci, !d))
    ∧ (∀ ci st st', sortTable ci st = some st' → st'.sortState ≠ none)
    ∧ (∀ ci c' d st st', st.sortState = some (c', d) → c' ≠ ci →
        sortTable ci st = some st' → st'.sortState = some (ci, true)) := by
  refine ⟨fun ci st st' hne h => ?_, fun ci d st st' hcur h => ?_,
    fun ci st st' h => ?_, fun ci c' d st st' hcur hne h => ?_⟩
  · obtain ⟨h1, h2, -⟩ := sortTable_some_elim h
    have hd : nextDirection ci st.sortState = true := by
      rw [nextDirection, if_neg (hne true)]
    rw [hd] at h1 h2
    exact ⟨h1, h2⟩
  · obtain ⟨h1, -⟩ := sortTable_some_elim h
    have hd : nextDirection ci st.sortState = !d := by
      cases d with
      | true => simp [nextDirection, hcur]
      | false => simp [nextDirection, hcur]
    rw [hd] at h1
    exact h1
  · obtain ⟨h1, -⟩ := sortTable_some_elim h
    rw [h1]
    simp
  · obtain ⟨h1, -⟩ := sortTable_some_elim h
    have hne2 : st.sortState ≠ some (ci, true) := by
      rw [hcur]
      intro hc
      rw [Option.some.injEq, Prod.mk.injEq] at hc
      exact hne hc.1
    have hd : nextDirection ci st.sortState = true := by
      rw [nextDirection, if_neg hne2]
    rw [hd] at h1
    exact h1

/-- Witness for C2 at a concrete state: a first click on column 0 of a fresh
two-row table lands on ascending, a second click flips to descending. -/
theorem sortTable_direction_rule_witness :
    sortTable 0
        ⟨["A"], none, [⟨["b"], false⟩, ⟨["a"], false⟩], "", "", [], 1, 100⟩
      = some ⟨["A"], some (0, true), [⟨["a"], false⟩, ⟨["b"], false⟩], "", "", [], 1, 100⟩
    ∧ (⟨["A"], some (0, true), [⟨["a"], false⟩, ⟨["b"], false⟩], "", "", [], 1, 100⟩
        : TableState).sortState = some (0, true)
    ∧ ∀ st', sortTable 0
        ⟨["A"], some (0, true), [⟨["a"], false⟩, ⟨["b"], false⟩], "", "", [], 1, 100⟩
          = some st' → st'.sortState = some (0, !true) := by
  refine ⟨by decide, ?_, fun st' h => ?_⟩
  · exact (sortTable_direction_rule.1 0
      ⟨["A"], none, [⟨["b"], false⟩, ⟨["a"], false⟩], "", "", [], 1, 100⟩
      ⟨["A"], some (0, true), [⟨["a"], false⟩, ⟨["b"], false⟩], "", "", [], 1, 100⟩
      (fun d => by simp) (by decide)).1
  · exact sortTable_direction_rule.2.1 0 true
      ⟨["A"], some (0, true), [⟨["a"], false⟩, ⟨["b"], false⟩], "", "", [], 1, 100⟩
      st' rfl h

/-! ### Claim C4 — stability of the sort -/

/-- C4: `sortTable`'s row reordering is stable, in both directions: for any
value `v`, the subsequence of rows whose sort key ties with `v` under the
comparator is exactly the same subsequence, in the same order, as before the
sort. -/
theorem sortRows_stable (ci : Nat) (asc : Bool) (rows sorted : List Row) (v : String)
    (h : sortRows ci asc rows = some sorted) :
    sorted.filter (fun r => rowOrder true (cellText r ci) v == .eq)
      = rows.filter (fun r => rowOrder true (cellText r ci) v == .eq) := by
  rw [sortRows_some_elim h]
  apply stableSort_filter
  intro x y hx hy
  rw [ordBeqEq_true_iff] at hx hy
  rw [rowLt, ordBeqLt_false_iff, rowOrder_tie asc hx hy]
  decide

/-- Witness for C4: sorting the spec's duplicate-country dataset by the
country column keeps Paris before Lyon among the France rows. -/
theorem sortRows_stable_witness :
    sortRows 1 true
        [⟨["Paris", "France"], false⟩, ⟨["Rome", "Italy"], false⟩,
          ⟨["Lyon", "France"], false⟩]
      = some [⟨["Paris", "France"], false⟩, ⟨["Lyon", "France"], false⟩,
          ⟨["Rome", "Italy"], false⟩]
    ∧ ([⟨["Paris", "France"], false⟩, ⟨["Lyon", "France"], false⟩,
          ⟨["Rome", "Italy"], false⟩] : List Row).filter
        (fun r => rowOrder true (cellText r 1) "France" == .eq)
      = ([⟨["Paris", "France"], false⟩, ⟨["Rome", "Italy"], false⟩,
          ⟨["Lyon", "France"], false⟩] : List Row).filter
        (fun r => rowOrder true (cellText r 1) "France" == .eq) := by
  refine ⟨by decide, ?_⟩
  exact sortRows_stable 1 true
    [⟨["Paris", "France"], false⟩, ⟨["Rome", "Italy"], false⟩,
      ⟨["Lyon", "France"], false⟩]
    [⟨["Paris", "France"], false⟩, ⟨["Lyon", "France"], false⟩,
      ⟨["Rome", "Italy"], false⟩] "France" (by decide)

/-! ### Claim C6 — totality of filter and sort -/

/-- C6 counterexample: sorting a two-row table whose first row has no cell in
the sorted column throws a `TypeError` (the comparator dereferences
`cells[0].textContent` on `undefined`), and a row lacking the country cell is
not treated as holding the empty string by the country filter — it stays
visible even though `"" !== "France"`. -/
theorem sortRows_missing_cell_counterexample :
    sortRows 0 true [⟨[], false⟩, ⟨["b"], false⟩] = none
    ∧ rowShown ["Country"] "" "France" ⟨[], false⟩ = true :=
  ⟨by decide, by decide⟩

/-- C6 amended: `applyFilters` always runs to completion, assigning a filtered
status to every row; `sortTable`'s row sort runs to completion whenever every
row has a cell in the sorted column (as in the uniform tables the notebook
emits) — a missing cell there throws, and a missing country cell exempts a
row from the country filter instead of acting as an empty string. -/
theorem sortRows_total_of_cells (ci : Nat) (asc : Bool) (rows : List Row)
    (st : TableState) (h : ∀ r ∈ rows, ci < r.cells.length) :
    (sortRows ci asc rows).isSome = true
    ∧ (applyFilters st).rows.length = st.rows.length := by
  constructor
  · have hall : allCellsPresent ci rows = true := by
      rw [allCellsPresent, List.all_eq_true]
      intro r hr
      exact decide_eq_true (h r hr)
    rw [sortRows, hall]
    simp
  · rw [applyFilters]
    exact List.length_map _ _

/-- Witness for C6's amended claim at a concrete uniform table. -/
theorem sortRows_total_of_cells_witness :
    (sortRows 0 true [⟨["b"], false⟩, ⟨["a"], true⟩]).isSome = true
    ∧ (applyFilters ⟨["A"], none, [⟨["b"], false⟩, ⟨["a"], true⟩], "x", "", [], 1,
        100⟩).rows.length
      = ([⟨["b"], false⟩, ⟨["a"], true⟩] : List Row).length :=
  sortRows_total_of_cells 0 true [⟨["b"], false⟩, ⟨["a"], true⟩]
    ⟨["A"], none, [⟨["b"], false⟩, ⟨["a"], true⟩], "x", "", [], 1, 100⟩
    (by decide)

/-! ### Claim C8 — sorting only reorders -/

/-- C8: a successful `sortTable` call only permutes the row nodes — the
multiset of rows, with their cell contents and `filtered` flags, is unchanged
— and leaves the search term, the selected country, the pagination counter,
the headers and the dropdown options untouched. -/
theorem sortTable_frame (ci : Nat) (st st' : TableState)
    (h : sortTable ci st = some st') :
    st'.rows.Perm st.rows ∧ st'.searchValue = st.searchValue
    ∧ st'.countryValue = st.countryValue ∧ st'.visibleCount = st.visibleCount
    ∧ st'.headers = st.headers ∧ st'.countryOptions = st.countryOptions := by
  obtain ⟨-, hrows, hh, hs, hc, ho, hv, -⟩ := sortTable_some_elim h
  exact ⟨hrows ▸ stableSort_perm _ _, hs, hc, hv, hh, ho⟩

/-- Witness for C8 at a concrete filtered, paginated state. -/
theorem sortTable_frame_witness :
    ([⟨["a"], true⟩, ⟨["b"], false⟩] : List Row).Perm [⟨["b"], false⟩, ⟨["a"], true⟩]
    ∧ ("x" : String) = "x" := by
  refine ⟨?_, rfl⟩
  exact (sortTable_frame 0
    ⟨["A"], none, [⟨["b"], false⟩, ⟨["a"], true⟩], "x", "France", ["All"], 3, 100⟩
    ⟨["A"], some (0, true), [⟨["a"], true⟩, ⟨["b"], false⟩], "x", "France", ["All"], 3,
      100⟩ (by decide)).1

/-! ### Facts about the filter primitives -/

theorem isSubList_nil (l : List Char) : isSubList [] l = true := by
  induction l with
  | nil => rfl
  | cons c cs ih => simp [isSubList, isPrefList]

theorem toLowerString_eq_empty_iff (s : String) : toLowerString s = "" ↔ s = "" := by
  constructor
  · intro h
    have h2 : s.data.map Char.toLower = ([] : List Char) := congrArg String.data h
    exact String.ext (List.map_eq_nil_iff.1 h2)
  · intro h
    rw [h]
    rfl

theorem applyFilters_rows (st : TableState) :
    (applyFilters st).rows = st.rows.map fun r =>
      { r with filtered := !(rowShown st.headers st.searchValue st.countryValue r) } := rfl

/-- With no selected country the per-row test is exactly the lowercased
substring test (the empty search term passes it vacuously). -/
theorem rowShown_no_country (headers : List String) (search : String) (r : Row) :
    rowShown headers search "" r
      = strIncludes (toLowerString (rowTextContent r)) (toLowerString search) := by
  simp only [rowShown, ne_eq, not_true_eq_false, if_false, Bool.true_and]
  by_cases hs : toLowerString search = ""
  · rw [hs]
    simp only [ne_eq, not_true_eq_false, decide_False, Bool.false_eq_true, if_false]
    exact (isSubList_nil _).symm
  · simp [hs]

/-- The per-row test with a country column present and the row's country cell
in hand: full-string equality on the trimmed cell against the selected
country, conjoined with the lowercased substring search, each vacuous when its
control is empty. -/
theorem rowShown_eval (headers : List String) (search country : String) (r : Row)
    (ci : Nat) (cell : String)
    (hci : countryColIndex headers = some ci)
    (hcell : r.cells.get? ci = some cell) :
    rowShown headers search country r
      = ((country == "" || jsTrim cell == country)
          && (search == ""
              || strIncludes (toLowerString (rowTextContent r)) (toLowerString search))) := by
  simp only [rowShown, hci, hcell]
  by_cases hc : country = ""
  · subst hc
    simp only [ne_eq, not_true_eq_false, if_false, Bool.true_and, beq_self_eq_true,
      Bool.true_or, Bool.true_and]
    by_cases hs : search = ""
    · subst hs
      have h0 : toLowerString "" = "" := rfl
      simp [h0, isSubList_nil]
    · have hs2 : ¬(toLowerString search = "") := fun h =>
        hs ((toLowerString_eq_empty_iff search).1 h)
      simp [hs, hs2]
  · rw [if_pos hc]
    by_cases hj : jsTrim cell = country
    · simp only [hj, ne_eq, not_true_eq_false, if_false, Bool.true_and,
        beq_self_eq_true, Bool.or_true]
      by_cases hs : search = ""
      · subst hs
        have h0 : toLowerString "" = "" := rfl
        simp [h0, isSubList_nil, hc]
      · have hs2 : ¬(toLowerString search = "") := fun h =>
          hs ((toLowerString_eq_empty_iff search).1 h)
        simp [hs, hs2, hc]
    · have hcb : (jsTrim cell == country) = false := by
        simp [hj]
      have hccb : (country == "") = false := by
        simp [hc]
      simp [hj, hcb, hccb]

/-! ### Claim C3 — text search with no country selected -/

/-- C3: with no country selected, `applyFilters` leaves a row visible exactly
when the lowercased search term occurs in the lowercased concatenation of its
cell texts; with the empty term every row stays visible. -/
theorem applyFilters_search_only (st : TableState) (h : st.countryValue = "") :
    (applyFilters st).rows
      = st.rows.map (fun r => { r with filtered :=
          !(strIncludes (toLowerString (rowTextContent r)) (toLowerString st.searchValue)) })
    ∧ (st.searchValue = "" →
        (applyFilters st).rows = st.rows.map fun r => { r with filtered := false }) := by
  have h1 : (applyFilters st).rows
      = st.rows.map fun r => { r with filtered :=
          !(strIncludes (toLowerString (rowTextContent r)) (toLowerString st.searchValue)) } := by
    rw [applyFilters_rows]
    apply List.map_congr_left
    intro r _
    rw [h, rowShown_no_country]
  refine ⟨h1, fun hs => ?_⟩
  rw [h1]
  apply List.map_congr_left
  intro r _
  rw [hs]
  rw [show strIncludes (toLowerString (rowTextContent r)) (toLowerString "") = true from
    isSubList_nil _]
  rfl

/-- Witness for C3: the term `"par"` keeps `Paris` and hides `Rome`; the empty
term keeps both. -/
theorem applyFilters_search_only_witness :
    (applyFilters ⟨["City"], none, [⟨["Paris"], false⟩, ⟨["Rome"], false⟩], "par", "",
        [], 1, 100⟩).rows
      = [⟨["Paris"], false⟩, ⟨["Rome"], true⟩]
    ∧ (applyFilters ⟨["City"], none, [⟨["Paris"], false⟩, ⟨["Rome"], true⟩], "", "",
        [], 1, 100⟩).rows
      = [⟨["Paris"], false⟩, ⟨["Rome"], false⟩] := by
  constructor
  · rw [(applyFilters_search_only
      ⟨["City"], none, [⟨["Paris"], false⟩, ⟨["Rome"], false⟩], "par", "", [], 1, 100⟩
      rfl).1]
    decide
  · rw [(applyFilters_search_only
      ⟨["City"], none, [⟨["Paris"], false⟩, ⟨["Rome"], true⟩], "", "", [], 1, 100⟩
      rfl).2 rfl]
    decide

/-! ### Claim C7 — whitespace in the search term -/

/-- C7 counterexample: the term `" paris"` (leading space) hides the row
`["Paris"]` that the trimmed term `"paris"` keeps visible — the code lowercases
the term but never trims it, so leading/trailing whitespace changes the
result. -/
theorem applyFilters_untrimmed_term_counterexample :
    (applyFilters ⟨["City"], none, [⟨["Paris"], false⟩], " paris", "", [], 1, 100⟩).rows
      = [⟨["Paris"], true⟩]
    ∧ jsTrim " paris" = "paris"
    ∧ (applyFilters ⟨["City"], none, [⟨["Paris"], false⟩], "paris", "", [], 1, 100⟩).rows
      = [⟨["Paris"], false⟩]
    ∧ ([⟨["Paris"], true⟩] : List Row) ≠ [⟨["Paris"], false⟩] :=
  ⟨by decide, by decide, by decide, by decide⟩

/-- C7 amended: the search term is used verbatim — lowercased but never
trimmed — so filtering with `t` and with `t` stripped of outer whitespace
coincide exactly when `t` carries none, and can differ otherwise. -/
theorem applyFilters_term_verbatim (st : TableState)
    (h : jsTrim st.searchValue = st.searchValue) :
    applyFilters { st with searchValue := jsTrim st.searchValue } = applyFilters st := by
  rw [h]

/-- Witness for C7's amended claim on an already-trimmed term. -/
theorem applyFilters_term_verbatim_witness :
    applyFilters { (⟨["City"], none, [⟨["Paris"], false⟩], "paris", "", [], 1, 100⟩
        : TableState) with searchValue := jsTrim "paris" }
      = applyFilters ⟨["City"], none, [⟨["Paris"], false⟩], "paris", "", [], 1, 100⟩ :=
  applyFilters_term_verbatim
    ⟨["City"], none, [⟨["Paris"], false⟩], "paris", "", [], 1, 100⟩ (by decide)

/-! ### Claim C9 — conjunction of the two filters -/

/-- C9: on a table with a country column and rows carrying that cell, a row
stays visible after `applyFilters` exactly when it passes both filters: the
trimmed country cell equals the selected country exactly (vacuous with no
selection), and the lowercased row text contains the lowercased search text
(vacuous with an empty search box). -/
theorem applyFilters_conjunction (st : TableState) (ci : Nat)
    (hci : countryColIndex st.headers = some ci)
    (hcells : ∀ r ∈ st.rows, ci < r.cells.length) :
    (applyFilters st).rows = st.rows.map fun r =>
      { r with filtered :=
          !((st.countryValue == "" || jsTrim (r.cells.getD ci "") == st.countryValue)
            && (st.searchValue == ""
                || strIncludes (toLowerString (rowTextContent r))
                    (toLowerString st.searchValue))) } := by
  rw [applyFilters_rows]
  apply List.map_congr_left
  intro r hr
  obtain ⟨cell, hcell⟩ : ∃ c, r.cells.get? ci = some c :=
    ⟨_, List.get?_eq_get (hcells r hr)⟩
  have hgd : r.cells.getD ci "" = cell := by
    rw [List.getD_eq_getD_get?, hcell]
    rfl
  rw [rowShown_eval st.headers st.searchValue st.countryValue r ci cell hci hcell, hgd]

/-- Witness for C9: selecting `France` with an empty search box keeps the
France row and hides the Italy row. -/
theorem applyFilters_conjunction_witness :
    (applyFilters ⟨["City", "Country"], none,
        [⟨["Paris", "France"], false⟩, ⟨["Rome", "Italy"], false⟩], "", "France",
        [], 1, 100⟩).rows
      = [⟨["Paris", "France"], false⟩, ⟨["Rome", "Italy"], true⟩] := by
  rw [applyFilters_conjunction
    ⟨["City", "Country"], none,
      [⟨["Paris", "France"], false⟩, ⟨["Rome", "Italy"], false⟩], "", "France", [], 1,
      100⟩ 1 (by decide) (by decide)]
  decide

/-! ### Claim C10 — the country dropdown -/

theorem mem_foldl_uniqueCountries (ci : Nat) (x : String) :
    ∀ (rows : List Row) (acc : List String),
    x ∈ rows.foldl (uniqueCountriesStep ci) acc
      ↔ x ∈ acc ∨ (x ≠ "" ∧ ∃ r, r ∈ rows ∧ ci < r.cells.length
          ∧ jsTrim (r.cells.getD ci "") = x)
  | [], acc => by simp
  | r :: rs, acc => by
    rw [List.foldl_cons, mem_foldl_uniqueCountries ci x rs]
    have hsplit : (∃ r', r' ∈ r :: rs ∧ ci < r'.cells.length
          ∧ jsTrim (r'.cells.getD ci "") = x)
        ↔ ((ci < r.cells.length ∧ jsTrim (r.cells.getD ci "") = x)
            ∨ ∃ r', r' ∈ rs ∧ ci < r'.cells.length ∧ jsTrim (r'.cells.getD ci "") = x) := by
      constructor
      · rintro ⟨r', hr', hq⟩
        rcases List.mem_cons.1 hr' with rfl | hr'
        · exact Or.inl hq
        · exact Or.inr ⟨r', hr', hq⟩
      · rintro (hq | ⟨r', hr', hq⟩)
        · exact ⟨r, List.mem_cons_self r rs, hq⟩
        · exact ⟨r', List.mem_cons_of_mem r hr', hq⟩
    rw [hsplit]
    unfold uniqueCountriesStep
    by_cases hlen : ci < r.cells.length
    · rw [if_pos hlen]
      by_cases hval : jsTrim (r.cells.getD ci "") = ""
      · rw [if_pos hval]
        constructor
        · rintro (hx | ⟨hne, h2⟩)
          · exact Or.inl hx
          · exact Or.inr ⟨hne, Or.inr h2⟩
        · rintro (hx | ⟨hne, hq | h2⟩)
          · exact Or.inl hx
          · exact absurd (hq.2.symm.trans hval) hne
          · exact Or.inr ⟨hne, h2⟩
      · rw [if_neg hval]
        by_cases hmem : jsTrim (r.cells.getD ci "") ∈ acc
        · rw [if_pos hmem]
          constructor
          · rintro (hx | ⟨hne, h2⟩)
            · exact Or.inl hx
            · exact Or.inr ⟨hne, Or.inr h2⟩
          · rintro (hx | ⟨hne, hq | h2⟩)
            · exact Or.inl hx
            · exact Or.inl (hq.2 ▸ hmem)
            · exact Or.inr ⟨hne, h2⟩
        · rw [if_neg hmem]
          constructor
          · rintro (hx | ⟨hne, h2⟩)
            · rcases List.mem_append.1 hx with hx | hx
              · exact Or.inl hx
              · rw [List.mem_singleton] at hx
                refine Or.inr ⟨?_, Or.inl ⟨hlen, hx.symm⟩⟩
                rw [hx]
                exact hval
            · exact Or.inr ⟨hne, Or.inr h2⟩
          · rintro (hx | ⟨hne, hq | h2⟩)
            · exact Or.inl (List.mem_append.2 (Or.inl hx))
            · exact Or.inl (List.mem_append.2 (Or.inr (List.mem_singleton.2 hq.2.symm)))
            · exact Or.inr ⟨hne, h2⟩
    · rw [if_neg hlen]
      constructor
      · rintro (hx | ⟨hne, h2⟩)
        · exact Or.inl hx
        · exact Or.inr ⟨hne, Or.inr h2⟩
      · rintro (hx | ⟨hne, hq | h2⟩)
        · exact Or.inl hx
        · exact absurd hq.1 hlen
        · exact Or.inr ⟨hne, h2⟩

theorem nodup_foldl_uniqueCountries (ci : Nat) :
    ∀ (rows : List Row) (acc : List String), acc.Nodup →
      (rows.foldl (uniqueCountriesStep ci) acc).Nodup
  | [], _, h => h
  | r :: rs, acc, h => by
    rw [List.foldl_cons]
    apply nodup_foldl_uniqueCountries ci rs
    unfold uniqueCountriesStep
    by_cases hlen : ci < r.cells.length
    · rw [if_pos hlen]
      by_cases hval : jsTrim (r.cells.getD ci "") = ""
      · rw [if_pos hval]
        exact h
      · rw [if_neg hval]
        by_cases hmem : jsTrim (r.cells.getD ci "") ∈ acc
        · rw [if_pos hmem]
          exact h
        · rw [if_neg hmem]
          rw [List.nodup_append]
          exact ⟨h, List.nodup_singleton _, fun a ha hb => by
            rw [List.mem_singleton] at hb
            exact hmem (hb ▸ ha)⟩
    · rw [if_neg hlen]
      exact h

/-- C10: with a country column present and the fixed first option in place,
`populateCountryFilter` leaves the first option alone and makes the remaining
options exactly the distinct non-empty trimmed country-cell values — each once
(`Nodup`), in strictly ascending lexicographic order — and running it again
reproduces the same option list, never duplicating entries. -/
theorem populateCountryFilter_options (st : TableState) (ci : Nat)
    (hci : countryColIndex st.headers = some ci)
    (hopts : st.countryOptions ≠ []) :
    (∀ x, x ∈ (populateCountryFilter st).countryOptions.drop 1
        ↔ x ≠ "" ∧ ∃ r, r ∈ st.rows ∧ ci < r.cells.length
            ∧ jsTrim (r.cells.getD ci "") = x)
    ∧ ((populateCountryFilter st).countryOptions.drop 1).Nodup
    ∧ ((populateCountryFilter st).countryOptions.drop 1).Pairwise
        (fun a b => defaultStrLt a b = true)
    ∧ (populateCountryFilter st).countryOptions.take 1 = st.countryOptions.take 1
    ∧ (populateCountryFilter (populateCountryFilter st)).countryOptions
        = (populateCountryFilter st).countryOptions := by
  obtain ⟨a, l, hco⟩ : ∃ a l, st.countryOptions = a :: l := by
    cases hco : st.countryOptions with
    | nil => exact absurd hco hopts
    | cons a l => exact ⟨a, l, rfl⟩
  have hopt : (populateCountryFilter st).countryOptions
      = st.countryOptions.take 1 ++ stableSort defaultStrLt (uniqueCountries ci st.rows) := by
    unfold populateCountryFilter
    rw [hci]
  have hdrop : (populateCountryFilter st).countryOptions.drop 1
      = stableSort defaultStrLt (uniqueCountries ci st.rows) := by
    rw [hopt, hco]
    simp
  have hperm := stableSort_perm defaultStrLt (uniqueCountries ci st.rows)
  have hnd : (stableSort defaultStrLt (uniqueCountries ci st.rows)).Nodup :=
    hperm.nodup_iff.2 (nodup_foldl_uniqueCountries ci st.rows [] List.nodup_nil)
  have htake : (populateCountryFilter st).countryOptions.take 1
      = st.countryOptions.take 1 := by
    rw [hopt, hco]
    simp
  refine ⟨?_, ?_, ?_, htake, ?_⟩
  · intro x
    rw [hdrop, hperm.mem_iff]
    exact (mem_foldl_uniqueCountries ci x st.rows []).trans (by simp)
  · rw [hdrop]
    exact hnd
  · rw [hdrop]
    have hpair := stableSort_pairwise defaultStrLt defaultStrLt_asymm
      defaultStrLt_negTrans (uniqueCountries ci st.rows)
    refine (hpair.and hnd).imp ?_
    intro a b hab
    rcases defaultStrLt_connex b a hab.1 with h3 | h3
    · exact absurd h3.symm hab.2
    · exact h3
  · have hfields : (populateCountryFilter st).headers = st.headers
        ∧ (populateCountryFilter st).rows = st.rows := by
      unfold populateCountryFilter
      rw [hci]
      exact ⟨rfl, rfl⟩
    have hci2 : countryColIndex (populateCountryFilter st).headers = some ci := by
      rw [hfields.1, hci]
    have hopt2 : (populateCountryFilter (populateCountryFilter st)).countryOptions
        = (populateCountryFilter st).countryOptions.take 1
          ++ stableSort defaultStrLt
              (uniqueCountries ci (populateCountryFilter st).rows) := by
      conv_lhs => rw [populateCountryFilter, hci2]
    rw [hopt2, hfields.2, htake, hopt]

/-- Witness for C10 on a concrete three-row table with a duplicated country:
the populated options are nodup, and a second run reproduces them. -/
theorem populateCountryFilter_options_witness :
    ((populateCountryFilter ⟨["City", "Country"], none,
        [⟨["P", "France"], false⟩, ⟨["R", "Italy"], false⟩, ⟨["L", "France"], false⟩],
        "", "", ["All Countries"], 1, 100⟩).countryOptions.drop 1).Nodup
    ∧ (populateCountryFilter (populateCountryFilter ⟨["City", "Country"], none,
        [⟨["P", "France"], false⟩, ⟨["R", "Italy"], false⟩, ⟨["L", "France"], false⟩],
        "", "", ["All Countries"], 1, 100⟩)).countryOptions
      = (populateCountryFilter ⟨["City", "Country"], none,
        [⟨["P", "France"], false⟩, ⟨["R", "Italy"], false⟩, ⟨["L", "France"], false⟩],
        "", "", ["All Countries"], 1, 100⟩).countryOptions := by
  have h := populateCountryFilter_options
    ⟨["City", "Country"], none,
      [⟨["P", "France"], false⟩, ⟨["R", "Italy"], false⟩, ⟨["L", "France"], false⟩],
      "", "", ["All Countries"], 1, 100⟩ 1 (by decide) (by decide)
  exact ⟨h.2.1, h.2.2.2.2⟩

/-! ### Claim C5 — pagination (modelled from the spec) -/

/-- C5 (spec-modelled): `showMore` bumps `visibleCount` by one; the previously
visible rows are a prefix of the new ones, at most `pageSize` further rows
appear, and when every matching row is already visible the visible sequence is
unchanged. -/
theorem showMore_spec (st : TableState) :
    (showMore st).visibleCount = st.visibleCount + 1
    ∧ (∃ t, visibleRows st ++ t = visibleRows (showMore st))
    ∧ (visibleRows (showMore st)).length ≤ (visibleRows st).length + st.pageSize
    ∧ ((matchingRows st).length ≤ st.visibleCount * st.pageSize →
        visibleRows (showMore st) = visibleRows st) := by
  have hv1 : visibleRows st
      = (matchingRows st).take (st.visibleCount * st.pageSize) := rfl
  have hv2 : visibleRows (showMore st)
      = (matchingRows st).take ((st.visibleCount + 1) * st.pageSize) := rfl
  have hle : st.visibleCount * st.pageSize ≤ (st.visibleCount + 1) * st.pageSize :=
    mul_le_mul_right' (Nat.le_succ _) _
  refine ⟨rfl, ?_, ?_, ?_⟩
  · refine ⟨(visibleRows (showMore st)).drop (st.visibleCount * st.pageSize), ?_⟩
    rw [hv2, hv1]
    have h1 : (matchingRows st).take (st.visibleCount * st.pageSize)
        = ((matchingRows st).take ((st.visibleCount + 1) * st.pageSize)).take
            (st.visibleCount * st.pageSize) := by
      rw [List.take_take, min_eq_left hle]
    rw [h1]
    exact List.take_append_drop _ _
  · rw [hv2, hv1, List.length_take, List.length_take]
    have hmul : (st.visibleCount + 1) * st.pageSize
        = st.visibleCount * st.pageSize + st.pageSize := by ring
    omega
  · intro h
    rw [hv2, hv1, List.take_of_length_le h, List.take_of_length_le (le_trans h hle)]

/-- Witness for C5 at a fully revealed three-row page. -/
theorem showMore_spec_witness :
    (showMore ⟨["A"], none,
        [⟨["a"], false⟩, ⟨["b"], false⟩, ⟨["c"], false⟩], "", "", [], 3, 1⟩).visibleCount
      = 3 + 1
    ∧ visibleRows (showMore ⟨["A"], none,
        [⟨["a"], false⟩, ⟨["b"], false⟩, ⟨["c"], false⟩], "", "", [], 3, 1⟩)
      = visibleRows ⟨["A"], none,
        [⟨["a"], false⟩, ⟨["b"], false⟩, ⟨["c"], false⟩], "", "", [], 3, 1⟩ :=
  ⟨(showMore_spec ⟨["A"], none,
      [⟨["a"], false⟩, ⟨["b"], false⟩, ⟨["c"], false⟩], "", "", [], 3, 1⟩).1,
    (showMore_spec ⟨["A"], none,
      [⟨["a"], false⟩, ⟨["b"], false⟩, ⟨["c"], false⟩], "", "", [], 3, 1⟩).2.2.2
      (by decide)⟩

end VaSchools
